import Mathlib

/-!
Shallow embedding of the RBAC core of `rbac-react-app`:

* `src/utils/rbacUtils.ts` — the access evaluator `hasPermission`;
* `src/store/slices/rbacSlice.ts` — the permission compiler
  `transformToUserPermissions`.

Modelling conventions:

* JavaScript `undefined`-able fields become `Option _`; a JS truthiness
  test on a string (`if (s)`) becomes a test that the option holds a
  non-empty string; a truthiness test on an optional boolean
  (`if (p.isOverride)`) collapses to a plain `Bool` field.
* `Metadata` strings are parsed by `JSON.parse` in the source; the parser
  is abstracted as a `String → Except Unit Metadata` parameter whose
  `error` models the thrown exception, which in the source aborts
  `transformToUserPermissions` (the `forEach` body does not catch it).
* Timestamps (`ValidFrom`/`ValidTo`, compared via `new Date(s) > now`)
  are modelled as already-parsed integer epoch values, `now : Int`.
* The JS `Map` built by `new Map(list)` keeps the LAST binding of a
  duplicated key, hence lookups search the reversed list.
-/

namespace RBAC

/-- One stage entry of `metadata.workflowRestrictions` (rbac.types.ts,
`WorkflowStage` / the object literal shape used in rbacUtils.ts). -/
structure StageRestriction where
  restrictedActions : Option (List String)
  allowedActions : Option (List String)
deriving DecidableEq

/-- The parsed `Metadata` object: optionally a `workflowRestrictions`
dictionary from stage name to its restriction entry (JS object modelled
as an association list; indexing returns the first binding). -/
structure Metadata where
  workflowRestrictions : Option (List (String × StageRestriction))
deriving DecidableEq

/-- `UserPermission` from rbac.types.ts (the compiled per-resource view). -/
structure UserPermission where
  resourcePath : String
  resourceId : Nat
  actions : List String
  isActive : Bool
  isOverride : Bool
  hierarchyLevel : Int
  validFrom : Option Int
  validTo : Option Int
  metadata : Option Metadata
deriving DecidableEq

/-- `PermissionCheckParams` from rbac.types.ts. -/
structure PermissionCheckParams where
  resourcePath : String
  action : String
  workflowStage : Option String
deriving DecidableEq

/-- `const currentStage = paramWorkflowStage || workflowStage;`
(rbacUtils.ts line 13) combined with the truthiness guard
`if (currentStage && ...)`: JS `||` falls through on the empty string,
and an empty-string result is falsy, hence normalised to `none`. -/
def effStage (paramStage ambientStage : Option String) : Option String :=
  let c := match paramStage with
    | some s => if s = "" then ambientStage else some s
    | none => ambientStage
  match c with
  | some s => if s = "" then none else some s
  | none => none

/-- JS object indexing `workflowRestrictions[currentStage]`. -/
def lookupStage (wr : List (String × StageRestriction)) (stage : String) :
    Option StageRestriction :=
  (wr.find? (fun e => e.1 == stage)).map (fun e => e.2)

/-- `permission.metadata?.workflowRestrictions?.[stage]` resolution used at
rbacUtils.ts lines 34-35 and 73-74. -/
def restrictionsFor (p : UserPermission) (stage : String) : Option StageRestriction :=
  match p.metadata with
  | none => none
  | some m =>
    match m.workflowRestrictions with
    | none => none
    | some wr => lookupStage wr stage

/-- `restrictions.restrictedActions?.includes(action)` (lines 37, 76). -/
def restrictedHit (r : StageRestriction) (action : String) : Bool :=
  match r.restrictedActions with
  | some l => l.contains action
  | none => false

/-- `restrictions.allowedActions && !restrictions.allowedActions.includes(action)`
(lines 40, 79). -/
def allowedMiss (r : StageRestriction) (action : String) : Bool :=
  match r.allowedActions with
  | some l => !(l.contains action)
  | none => false

/-- The workflow-stage filtering block (rbacUtils.ts lines 33-44 for the
exact match, repeated verbatim at lines 72-83 for the matched ancestor):
deny exactly when a restriction entry for the resolved stage exists and
either its restricted list names the action or its allowed list is
present and misses the action. -/
def workflowDeny (p : UserPermission) (currentStage : Option String) (action : String) : Bool :=
  match currentStage with
  | none => false
  | some stage =>
    match restrictionsFor p stage with
    | none => false
    | some r => restrictedHit r action || allowedMiss r action

/-- JS `String.prototype.split('/')` on the character list (keeps empty
pieces at a leading/trailing/repeated separator, like JS; `''.split('/')`
is `['']`). Implemented by structural recursion so the kernel can
evaluate it on concrete inputs. -/
def splitOnSlashAux : List Char → List Char → List String
  | [], acc => [⟨acc.reverse⟩]
  | c :: cs, acc =>
    if c = '/' then ⟨acc.reverse⟩ :: splitOnSlashAux cs []
    else splitOnSlashAux cs (c :: acc)

/-- JS `resourcePath.split('/')`. -/
def splitOnSlash (s : String) : List String :=
  splitOnSlashAux s.data []

/-- JS `a.startsWith(b)`: `b` is a prefix of `a` (character-level). -/
def strStartsWith (a b : String) : Bool :=
  b.data.isPrefixOf a.data

/-- `resourcePath.split('/').filter(Boolean)` (line 51). -/
def pathSegments (resourcePath : String) : List String :=
  (splitOnSlash resourcePath).filter (fun s => s != "")

/-- The ancestor paths tried by the loop at lines 53-54, most specific
first: for `i = len-1` down to `0`, `'/' + segments.slice(0, i+1).join('/')`. -/
def candidatePaths (segs : List String) : List String :=
  ((List.range segs.length).reverse).map
    (fun i => "/" ++ String.intercalate "/" (segs.take (i + 1)))

/-- The override-deny test at lines 61-66: some entry whose resource path
starts with the literal requested path, is an override, and lacks the
action. -/
def overrideDeny (perms : List UserPermission) (resourcePath action : String) : Bool :=
  perms.any (fun q =>
    strStartsWith q.resourcePath resourcePath && q.isOverride && !(q.actions.contains action))

/-- The hierarchical fallback loop (lines 53-87): at each candidate path,
look up an entry; if it exists and its action set contains the action,
return the override-deny / workflow-deny verdict, otherwise continue with
the next (less specific) candidate; exhausting candidates yields `false`. -/
def walkAncestors (perms : List UserPermission) (resourcePath action : String)
    (currentStage : Option String) : List String → Bool
  | [] => false
  | c :: rest =>
    match perms.find? (fun p => p.resourcePath == c) with
    | some parentPermission =>
      if parentPermission.actions.contains action then
        if overrideDeny perms resourcePath action then false
        else if workflowDeny parentPermission currentStage action then false
        else true
      else walkAncestors perms resourcePath action currentStage rest
    | none => walkAncestors perms resourcePath action currentStage rest

/-- `hasPermission` (rbacUtils.ts lines 7-90). -/
def hasPermission (userPermissions : List UserPermission)
    (params : PermissionCheckParams) (workflowStage : Option String) : Bool :=
  let currentStage := effStage params.workflowStage workflowStage
  match userPermissions.find? (fun p => p.resourcePath == params.resourcePath) with
  | some exactMatch =>
    if exactMatch.isOverride then exactMatch.actions.contains params.action
    else if workflowDeny exactMatch currentStage params.action then false
    else exactMatch.actions.contains params.action
  | none =>
    walkAncestors userPermissions params.resourcePath params.action currentStage
      (candidatePaths (pathSegments params.resourcePath))

/-- Specification-side description of the selection performed by the
fallback loop: the first candidate path carrying an entry whose action
set contains the action. Used to state claims about "the matched
ancestor". -/
def selectAncestor (perms : List UserPermission) (action : String) :
    List String → Option UserPermission
  | [] => none
  | c :: rest =>
    match perms.find? (fun p => p.resourcePath == c) with
    | some p => if p.actions.contains action then some p else selectAncestor perms action rest
    | none => selectAncestor perms action rest

/-! ### The permission compiler (rbacSlice.ts, `transformToUserPermissions`) -/

/-- `Resource` from rbac.types.ts (fields the compiler reads). -/
structure Resource where
  ResourceId : Nat
  ResourcePath : String
  ResourceName : String
  ResourceType : String
  HierarchyLevel : Int
  ParentResourceId : Option Nat
deriving DecidableEq

/-- `Action` from rbac.types.ts. -/
structure ActionRec where
  ActionId : Nat
  Action : String
deriving DecidableEq

/-- `PermissionMatrix` row from rbac.types.ts; `ValidFrom`/`ValidTo` are
modelled as already-parsed epoch integers (the source stores strings and
parses with `new Date`), and the optional `IsOverride` collapses to
`Bool` since the source only tests its truthiness. -/
structure PermissionMatrix where
  PermissionId : Nat
  RoleId : Nat
  ResourceId : Nat
  ActionId : Nat
  IsActive : Bool
  ValidFrom : Option Int
  ValidTo : Option Int
  IsOverride : Bool
  Metadata : Option String
deriving DecidableEq

/-- `new Map(resources.map(r => [r.ResourceId, r])).get(rid)`: the JS
`Map` constructor keeps the LAST binding of a duplicated key. -/
def mapLookupResource (resources : List Resource) (rid : Nat) : Option Resource :=
  (resources.reverse).find? (fun r => r.ResourceId == rid)

/-- `new Map(actions.map(a => [a.ActionId, a])).get(aid)`, last binding wins. -/
def mapLookupAction (actions : List ActionRec) (aid : Nat) : Option ActionRec :=
  (actions.reverse).find? (fun a => a.ActionId == aid)

/-- The time-based validity predicate (rbacSlice.ts lines 173-177): a row
is currently valid iff (`ValidFrom` absent or `≤ now`) and (`ValidTo`
absent or `≥ now`). -/
def isCurrentlyValid (now : Int) (p : PermissionMatrix) : Bool :=
  (match p.ValidFrom with | some t => decide (t ≤ now) | none => true) &&
  (match p.ValidTo with | some t => decide (now ≤ t) | none => true)

/-- One step of the grouping at rbacSlice.ts lines 151-156: append the row
to its resource's bucket, creating the bucket at the end on first sight
(JS `Map` iterates in insertion order). -/
def insertGroup (acc : List (Nat × List PermissionMatrix)) (p : PermissionMatrix) :
    List (Nat × List PermissionMatrix) :=
  if acc.any (fun g => g.1 == p.ResourceId) then
    acc.map (fun g => if g.1 == p.ResourceId then (g.1, g.2 ++ [p]) else g)
  else acc ++ [(p.ResourceId, [p])]

/-- `permissionMatrix.filter(p => p.RoleId === currentRoleId && p.IsActive)`
(line 147). -/
def rolePermissionsOf (permissionMatrix : List PermissionMatrix) (roleId : Nat) :
    List PermissionMatrix :=
  permissionMatrix.filter (fun p => p.RoleId == roleId && p.IsActive)

/-- The `permissionsByResource` map of lines 144-156, as an
insertion-ordered association list. -/
def groupsOf (permissionMatrix : List PermissionMatrix) (roleId : Nat) :
    List (Nat × List PermissionMatrix) :=
  (rolePermissionsOf permissionMatrix roleId).foldl insertGroup []

/-- The action names of a group (lines 166-169): every row of the group is
mapped through the action lookup (missing lookup gives `''`) and the
falsy empty strings are filtered out. Note the source computes this from
ALL rows of the group, not only the currently-valid ones. -/
def actionNamesOf (actions : List ActionRec) (rows : List PermissionMatrix) : List String :=
  (rows.map (fun p =>
    match mapLookupAction actions p.ActionId with
    | some a => a.Action
    | none => "")).filter (fun s => s != "")

/-- `firstPermission.Metadata ? JSON.parse(firstPermission.Metadata) : undefined`
(line 190): an empty or absent string is falsy and yields no metadata; a
non-empty string is parsed, and a parse failure is a thrown exception
(`Except.error`). -/
def metadataOf (parseMeta : String → Except Unit Metadata) (firstPermission : PermissionMatrix) :
    Except Unit (Option Metadata) :=
  match firstPermission.Metadata with
  | some s => if s = "" then .ok none else (parseMeta s).map some
  | none => .ok none

/-- The body of the `forEach` at rbacSlice.ts lines 159-193 for one
(resourceId, rows) group: skip silently on a dangling resource id or when
no row is currently valid; otherwise build the `UserPermission` from the
group's action names and the FIRST currently-valid row's flags/window/
metadata. A metadata parse failure propagates as an error. -/
def processGroup (resources : List Resource) (actions : List ActionRec) (now : Int)
    (parseMeta : String → Except Unit Metadata) (g : Nat × List PermissionMatrix) :
    Except Unit (Option UserPermission) :=
  match mapLookupResource resources g.1 with
  | none => .ok none
  | some resource =>
    let actionNames := actionNamesOf actions g.2
    match g.2.filter (isCurrentlyValid now) with
    | [] => .ok none
    | firstPermission :: _ =>
      (metadataOf parseMeta firstPermission).map (fun md => some {
        resourcePath := resource.ResourcePath
        resourceId := resource.ResourceId
        actions := actionNames
        isActive := true
        isOverride := firstPermission.IsOverride
        hierarchyLevel := resource.HierarchyLevel
        validFrom := firstPermission.ValidFrom
        validTo := firstPermission.ValidTo
        metadata := md })

/-- `transformToUserPermissions` (rbacSlice.ts lines 127-196). The JS
guard `if (!currentRoleId) return []` also fires on role id `0` (falsy).
An uncaught metadata parse exception aborts the whole transformation,
modelled by the `Except` monad threading through the groups in order. -/
def transformToUserPermissions (permissionMatrix : List PermissionMatrix)
    (resources : List Resource) (actions : List ActionRec)
    (currentRoleId : Option Nat) (now : Int)
    (parseMeta : String → Except Unit Metadata) :
    Except Unit (List UserPermission) :=
  match currentRoleId with
  | none => .ok []
  | some roleId =>
    if roleId = 0 then .ok []
    else
      (groupsOf permissionMatrix roleId).foldlM
        (fun acc g =>
          (processGroup resources actions now parseMeta g).map
            (fun u => match u with
              | some entry => acc ++ [entry]
              | none => acc))
        []

/-! ### Concrete instances used by the claims -/

/-- `{path:"/orders", actions:["READ"]}` of the override-deny example. -/
def c1OrdersEntry : UserPermission := ⟨"/orders", 1, ["READ"], true, false, 1, none, none, none⟩

/-- `{path:"/orders/form", actions:[], isOverride:true}` of the
override-deny example. -/
def c1FormOverride : UserPermission := ⟨"/orders/form", 2, [], true, true, 2, none, none, none⟩

/-- The permission list of the override-deny example. -/
def c1Perms : List UserPermission := [c1OrdersEntry, c1FormOverride]

/-- A granting ancestor entry at `/orders`. -/
def c3OrdersEntry : UserPermission := ⟨"/orders", 1, ["READ"], true, false, 1, none, none, none⟩

/-- An override entry WITHOUT `READ` at a path that starts with the
requested path `/orders/form/amount`. -/
def c3CentsOverride : UserPermission :=
  ⟨"/orders/form/amount/cents", 5, [], true, true, 4, none, none, none⟩

/-- Permission list exercising the override-deny prefix check. -/
def c3Perms : List UserPermission := [c3OrdersEntry, c3CentsOverride]

/-- Exact-match override entry at `/a` granting `READ`, carrying a
restriction object for stage `draft` that would deny `READ`. -/
def c4Entry : UserPermission :=
  ⟨"/a", 1, ["READ"], true, true, 1, none, none,
    some ⟨some [("draft", ⟨some ["READ"], none⟩)]⟩⟩

/-- Restriction for stage `draft`: `restrictedActions=["SUBMIT"]`,
`allowedActions=["READ","SUBMIT"]`. -/
def c5ExactRestriction : StageRestriction := ⟨some ["SUBMIT"], some ["READ", "SUBMIT"]⟩

/-- Non-override exact entry at `/a` with actions `READ`/`SUBMIT` and the
draft-stage restriction above. -/
def c5ExactEntry : UserPermission :=
  ⟨"/a", 1, ["READ", "SUBMIT"], true, false, 1, none, none,
    some ⟨some [("draft", c5ExactRestriction)]⟩⟩

/-- Restriction for stage `approved`: only `allowedActions=["READ"]`. -/
def c5ParentRestriction : StageRestriction := ⟨none, some ["READ"]⟩

/-- Non-override ancestor entry at `/a` with actions `READ`/`UPDATE` and
the approved-stage restriction above. -/
def c5ParentEntry : UserPermission :=
  ⟨"/a", 1, ["READ", "UPDATE"], true, false, 1, none, none,
    some ⟨some [("approved", c5ParentRestriction)]⟩⟩

/-- Entry at `/a` granting `READ` but restricted for stage `draft`. -/
def c6Entry : UserPermission :=
  ⟨"/a", 1, ["READ"], true, false, 1, none, none,
    some ⟨some [("draft", ⟨some ["READ"], none⟩)]⟩⟩

/-- An entry whose action set does not mention the unknown action used in
the totality witness. -/
def c7Entry : UserPermission := ⟨"/a", 1, ["READ"], true, false, 1, none, none, none⟩

/-- Entry at `/orders` granting `READ`, for the path-normalisation claim. -/
def c10Entry : UserPermission := ⟨"/orders", 1, ["READ"], true, false, 1, none, none, none⟩

/-- Resource `/orders` with id 1. -/
def c2Resource : Resource := ⟨1, "/orders", "Orders", "PAGE", 1, none⟩

/-- Active, unbounded-validity row granting action id 1 (`READ`). -/
def c2RowRead : PermissionMatrix := ⟨1, 1, 1, 1, true, none, none, false, none⟩

/-- Active row granting action id 2 (`DELETE`) whose `ValidTo` (epoch 0)
is before the evaluation time `now = 100`. -/
def c2RowDelete : PermissionMatrix := ⟨2, 1, 1, 2, true, none, some 0, false, none⟩

/-- The permission matrix of the validity-window scenario. -/
def c2Matrix : List PermissionMatrix := [c2RowRead, c2RowDelete]

/-- Action lookup table: 1 = READ, 2 = DELETE. -/
def c2Lookup : List ActionRec := [⟨1, "READ"⟩, ⟨2, "DELETE"⟩]

/-- A metadata parser (no row in the scenario carries metadata). -/
def c2Parse : String → Except Unit Metadata := fun _ => .error ()

/-- The entry the compiler produces for the validity-window scenario: the
expired row's `DELETE` is still in the action set. -/
def c2Compiled : UserPermission :=
  ⟨"/orders", 1, ["READ", "DELETE"], true, false, 1, none, none, none⟩

/-- Resource `/orders` with id 1 for the malformed-metadata scenario. -/
def c8Resource : Resource := ⟨1, "/orders", "Orders", "PAGE", 1, none⟩

/-- An active, currently-valid row whose `Metadata` string `"x"` the
parser rejects. -/
def c8Row : PermissionMatrix := ⟨1, 1, 1, 1, true, none, none, false, some "x"⟩

/-- Action lookup table for the malformed-metadata scenario. -/
def c8Lookup : List ActionRec := [⟨1, "READ"⟩]

/-- A parser rejecting every metadata string. -/
def c8Parse : String → Except Unit Metadata := fun _ => .error ()

/-! ### Helper lemmas -/

theorem walkAncestors_nil_perms (rp a : String) (st : Option String) (cs : List String) :
    walkAncestors [] rp a st cs = false := by
  induction cs with
  | nil => rfl
  | cons c rest ih => simp [walkAncestors, List.find?_nil, ih]

theorem walkAncestors_of_overrideDeny (perms : List UserPermission) (rp a : String)
    (st : Option String) (cs : List String) (hod : overrideDeny perms rp a = true) :
    walkAncestors perms rp a st cs = false := by
  induction cs with
  | nil => rfl
  | cons c rest ih =>
    cases hfind : perms.find? (fun p => p.resourcePath == c) with
    | none => simp [walkAncestors, hfind, ih]
    | some p =>
      cases hact : p.actions.contains a <;>
        simp [walkAncestors, hfind, hact, hod, ih]

theorem walkAncestors_no_action (perms : List UserPermission) (rp a : String)
    (st : Option String) (cs : List String) (h : ∀ p ∈ perms, a ∉ p.actions) :
    walkAncestors perms rp a st cs = false := by
  induction cs with
  | nil => rfl
  | cons c rest ih =>
    cases hfind : perms.find? (fun p => p.resourcePath == c) with
    | none => simp [walkAncestors, hfind, ih]
    | some p =>
      have hmem : p ∈ perms := List.mem_of_find?_eq_some hfind
      simp [walkAncestors, hfind, h p hmem, ih]

theorem selectAncestor_contains (perms : List UserPermission) (a : String)
    (cs : List String) (p : UserPermission) (h : selectAncestor perms a cs = some p) :
    p.actions.contains a = true := by
  induction cs with
  | nil => simp [selectAncestor] at h
  | cons c rest ih =>
    cases hfind : perms.find? (fun q => q.resourcePath == c) with
    | none =>
      rw [selectAncestor, hfind] at h
      exact ih h
    | some q =>
      rw [selectAncestor, hfind] at h
      dsimp only at h
      by_cases hact : q.actions.contains a = true
      · rw [if_pos hact] at h
        cases h
        exact hact
      · rw [if_neg hact] at h
        exact ih h

theorem walkAncestors_eq_selectAncestor (perms : List UserPermission) (rp a : String)
    (st : Option String) (cs : List String) :
    walkAncestors perms rp a st cs =
      (match selectAncestor perms a cs with
       | some p => !overrideDeny perms rp a && !workflowDeny p st a
       | none => false) := by
  induction cs with
  | nil => rfl
  | cons c rest ih =>
    cases hfind : perms.find? (fun q => q.resourcePath == c) with
    | none => simp [walkAncestors, selectAncestor, hfind, ih]
    | some p =>
      cases hact : p.actions.contains a with
      | false =>
        have hnm : a ∉ p.actions := by
          intro hm
          have hc : p.actions.contains a = true := List.elem_iff.mpr hm
          rw [hc] at hact
          cases hact
        simp [walkAncestors, selectAncestor, hfind, hnm, ih]
      | true =>
        simp only [walkAncestors, selectAncestor, hfind]
        rw [if_pos hact, if_pos hact]
        cases hod : overrideDeny perms rp a <;>
          cases hwd : workflowDeny p st a <;> simp [hod, hwd]

theorem effStage_of_ne_empty (s : String) (ambientStage : Option String) (hs : s ≠ "") :
    effStage (some s) ambientStage = some s := by
  simp [effStage, hs]

theorem transformFold_error (resources : List Resource) (actions : List ActionRec)
    (now : Int) (parseMeta : String → Except Unit Metadata)
    (gs : List (Nat × List PermissionMatrix)) (g : Nat × List PermissionMatrix)
    (hg : g ∈ gs) (hpg : processGroup resources actions now parseMeta g = .error ()) :
    ∀ acc : List UserPermission,
      gs.foldlM
        (fun acc g2 =>
          (processGroup resources actions now parseMeta g2).map
            (fun u => match u with
              | some entry => acc ++ [entry]
              | none => acc))
        acc = .error () := by
  induction gs with
  | nil => cases hg
  | cons h t ih =>
    intro acc
    rw [List.foldlM_cons]
    rcases List.mem_cons.mp hg with hgh | hgt
    · subst hgh
      rw [hpg]
      rfl
    · cases hph : processGroup resources actions now parseMeta h with
      | error e =>
        cases e
        rfl
      | ok v =>
        cases v <;> exact ih hgt _

/-! ### Claim theorems -/

/-- C9: for the empty permission list, evaluation returns false for every
resource path, every action, and every optional workflow stage (default
deny). -/
theorem c9_default_deny (params : PermissionCheckParams) (ambientStage : Option String) :
    hasPermission [] params ambientStage = false := by
  unfold hasPermission
  simp only [List.find?_nil]
  exact walkAncestors_nil_perms _ _ _ _

/-- C7: the evaluator is a total function returning a boolean on every
input — including, per the same spec passage, unknown action names, which
fail every membership test and therefore yield deny. -/
theorem c7_evaluator_total (perms : List UserPermission) (params : PermissionCheckParams)
    (ambientStage : Option String) :
    (hasPermission perms params ambientStage = true ∨
     hasPermission perms params ambientStage = false) ∧
    ((∀ p ∈ perms, params.action ∉ p.actions) →
      hasPermission perms params ambientStage = false) := by
  constructor
  · cases hasPermission perms params ambientStage
    · exact Or.inr rfl
    · exact Or.inl rfl
  · intro hno
    unfold hasPermission
    cases hfind : perms.find? (fun p => p.resourcePath == params.resourcePath) with
    | some e =>
      have hmem : e ∈ perms := List.mem_of_find?_eq_some hfind
      simp [hno e hmem]
    | none =>
      exact walkAncestors_no_action _ _ _ _ _ hno

/-- C7 witness: an unknown action is denied on a concrete nonempty
permission list. -/
theorem c7_evaluator_total_witness :
    hasPermission [c7Entry] ⟨"/a", "FROBNICATE", none⟩ none = false :=
  (c7_evaluator_total [c7Entry] ⟨"/a", "FROBNICATE", none⟩ none).2 (by decide)

/-- C4: when the entry found by the exact-match lookup has
`isOverride = true`, evaluation returns exactly the membership of the
requested action in that entry's action set, ignoring workflow-stage
restrictions and all other entries. -/
theorem c4_exact_override_authoritative (perms : List UserPermission)
    (params : PermissionCheckParams) (ambientStage : Option String) (e : UserPermission)
    (hfind : perms.find? (fun p => p.resourcePath == params.resourcePath) = some e)
    (hov : e.isOverride = true) :
    hasPermission perms params ambientStage = e.actions.contains params.action := by
  unfold hasPermission
  rw [hfind]
  simp [hov]

/-- C4 witness: the override entry `{path:"/a", actions:["READ"],
isOverride:true}` with an ambient stage `draft` and a restriction object
denying `READ` in `draft` still returns true for `READ`. -/
theorem c4_exact_override_authoritative_witness :
    hasPermission [c4Entry] ⟨"/a", "READ", none⟩ (some "draft") = true := by
  have h := c4_exact_override_authoritative [c4Entry] ⟨"/a", "READ", none⟩ (some "draft")
    c4Entry (by rfl) (by rfl)
  rw [h]
  decide

/-- C1 counterexample: on
`[{path:"/orders", actions:["READ"]}, {path:"/orders/form", actions:[], isOverride:true}]`
the request `("/orders/form/amount", "READ")` does NOT return false: the
override-deny check looks for entries whose path starts with the
requested path, and `"/orders/form"` does not start with
`"/orders/form/amount"`. -/
theorem c1_claim_refuted :
    ¬ (hasPermission c1Perms ⟨"/orders/form/amount", "READ", none⟩ none = false) := by
  decide

/-- C1 amended: on the same entries, `("/orders/form/amount", "READ")`
evaluates to true — the `/orders/form` override does not block the READ
inherited from `/orders`, because the override-deny prefix check matches
entries whose resource path starts with the requested path, and
`/orders/form` is shorter than the request. -/
theorem c1_override_does_not_block :
    hasPermission c1Perms ⟨"/orders/form/amount", "READ", none⟩ none = true := by
  decide

/-- C6 counterexample: with the explicit workflow-stage parameter set to
the empty string (a legal string value, but falsy in JS), evaluating with
ambient stage `draft` differs from evaluating with the explicit parameter
alone, so the explicit parameter does NOT determine the stage whenever it
is supplied. -/
theorem c6_claim_refuted :
    ¬ (hasPermission [c6Entry] ⟨"/a", "READ", some ""⟩ (some "draft") =
       hasPermission [c6Entry] ⟨"/a", "READ", some ""⟩ none) := by
  decide

/-- C6 amended: whenever the explicit workflow-stage parameter is a
NON-EMPTY string, it takes precedence: evaluating with it and any ambient
stage equals evaluating with the explicit stage alone. -/
theorem c6_explicit_stage_precedence (perms : List UserPermission) (rp a : String)
    (ambientStage : Option String) (s : String) (hs : s ≠ "") :
    hasPermission perms ⟨rp, a, some s⟩ ambientStage =
      hasPermission perms ⟨rp, a, some s⟩ none := by
  unfold hasPermission
  rw [effStage_of_ne_empty s ambientStage hs, effStage_of_ne_empty s none hs]

/-- C6 witness: a concrete instance of the amended precedence law. -/
theorem c6_explicit_stage_precedence_witness :
    hasPermission [c6Entry] ⟨"/a", "READ", some "draft"⟩ (some "other") =
      hasPermission [c6Entry] ⟨"/a", "READ", some "draft"⟩ none :=
  c6_explicit_stage_precedence [c6Entry] "/a" "READ" (some "other") "draft" (by decide)

/-- C3: with no exact-match entry and some ancestor entry containing the
action, if ANY entry whose resource path starts with the literal
requested path string is an override lacking the action, evaluation
returns false; the prefix check uses the original requested path. -/
theorem c3_override_prefix_deny (perms : List UserPermission) (rp a : String)
    (paramStage ambientStage : Option String)
    (hexact : perms.find? (fun p => p.resourcePath == rp) = none)
    (_hanc : ∃ c ∈ candidatePaths (pathSegments rp), ∃ e : UserPermission,
      perms.find? (fun p => p.resourcePath == c) = some e ∧ a ∈ e.actions)
    (hod : overrideDeny perms rp a = true) :
    hasPermission perms ⟨rp, a, paramStage⟩ ambientStage = false := by
  unfold hasPermission
  rw [hexact]
  exact walkAncestors_of_overrideDeny _ _ _ _ _ hod

/-- C3 witness: `/orders` grants READ, the override at
`/orders/form/amount/cents` (whose path starts with the requested
`/orders/form/amount`) lacks READ, so the request is denied. -/
theorem c3_override_prefix_deny_witness :
    hasPermission c3Perms ⟨"/orders/form/amount", "READ", none⟩ none = false :=
  c3_override_prefix_deny c3Perms "/orders/form/amount" "READ" none none (by rfl)
    ⟨"/orders", by decide, c3OrdersEntry, by rfl, by decide⟩ (by rfl)

/-- C5: for a selected non-override entry (the exact match, or the
matched ancestor when no override-deny fires) with a restriction entry
for the resolved stage: a restricted action is denied even if also
listed as allowed; otherwise a present allowed-list lacking the action
denies; otherwise the underlying action-set membership decides. -/
theorem c5_workflow_stage_filtering (perms : List UserPermission) (rp a : String)
    (paramStage ambientStage : Option String) (st : String) (e : UserPermission)
    (r : StageRestriction)
    (hst : effStage paramStage ambientStage = some st)
    (hr : restrictionsFor e st = some r) :
    ((perms.find? (fun p => p.resourcePath == rp) = some e ∧ e.isOverride = false) →
      hasPermission perms ⟨rp, a, paramStage⟩ ambientStage =
        (if restrictedHit r a then false
         else if allowedMiss r a then false
         else e.actions.contains a)) ∧
    ((perms.find? (fun p => p.resourcePath == rp) = none ∧
      selectAncestor perms a (candidatePaths (pathSegments rp)) = some e ∧
      overrideDeny perms rp a = false) →
      hasPermission perms ⟨rp, a, paramStage⟩ ambientStage =
        (if restrictedHit r a then false
         else if allowedMiss r a then false
         else e.actions.contains a)) := by
  have hwd : workflowDeny e (effStage paramStage ambientStage) a =
      (restrictedHit r a || allowedMiss r a) := by
    rw [hst]
    simp [workflowDeny, hr]
  constructor
  · rintro ⟨hfind, hov⟩
    unfold hasPermission
    rw [hfind]
    simp only [hov, Bool.false_eq_true, if_false, hwd]
    cases hrh : restrictedHit r a <;> cases ham : allowedMiss r a <;> simp
  · rintro ⟨hfind, hsel, hod⟩
    have hact := selectAncestor_contains perms a _ e hsel
    unfold hasPermission
    rw [hfind]
    dsimp only
    rw [walkAncestors_eq_selectAncestor, hsel]
    simp only [hod, hwd, Bool.not_false, Bool.true_and]
    cases hrh : restrictedHit r a <;> cases ham : allowedMiss r a <;>
      simp [hrh, ham, List.elem_iff.mp hact]

/-- C5 witness: (exact case) `SUBMIT` restricted in `draft` is denied
though also allowed-listed; (ancestor case) `UPDATE` missing from the
`approved` allowed-list is denied on the matched ancestor `/a`. -/
theorem c5_workflow_stage_filtering_witness :
    hasPermission [c5ExactEntry] ⟨"/a", "SUBMIT", some "draft"⟩ none = false ∧
    hasPermission [c5ParentEntry] ⟨"/a/b", "UPDATE", some "approved"⟩ none = false := by
  constructor
  · have h := (c5_workflow_stage_filtering [c5ExactEntry] "/a" "SUBMIT" (some "draft") none
      "draft" c5ExactEntry c5ExactRestriction (by rfl) (by rfl)).1 ⟨by rfl, by rfl⟩
    rw [h]
    decide
  · have h := (c5_workflow_stage_filtering [c5ParentEntry] "/a/b" "UPDATE" (some "approved")
      none "approved" c5ParentEntry c5ParentRestriction (by rfl) (by rfl)).2
      ⟨by rfl, by rfl, by rfl⟩
    rw [h]
    decide

/-- C10: when the request path has at least one non-empty segment, the
most specific candidate of the hierarchical fallback is `'/'` followed by
the segments joined by `'/'` — the normalised request itself; hence
`"/orders/"` and `"orders"` are granted by an entry at `"/orders"` even
though exact match fails. -/
theorem c10_normalized_self_candidate :
    (∀ rp : String, pathSegments rp ≠ [] →
      (candidatePaths (pathSegments rp)).head? =
        some ("/" ++ String.intercalate "/" (pathSegments rp))) ∧
    hasPermission [c10Entry] ⟨"/orders/", "READ", none⟩ none = true ∧
    hasPermission [c10Entry] ⟨"orders", "READ", none⟩ none = true := by
  refine ⟨?_, by decide, by decide⟩
  intro rp h
  cases hs : pathSegments rp with
  | nil => exact absurd hs h
  | cons x t =>
    simp [candidatePaths, List.range_succ, List.take_length]

/-- C10 witness: the most specific candidate for `"/x/y"` is `"/x/y"`. -/
theorem c10_normalized_self_candidate_witness :
    (candidatePaths (pathSegments "/x/y")).head? = some "/x/y" := by
  have h := c10_normalized_self_candidate.1 "/x/y" (by decide)
  rw [h]
  decide

/-- C2 (code bug): with `now = 100`, the row granting `DELETE` expired at
epoch 0, yet the compiled entry's action set still contains `DELETE`
(the source computes the action list from all rows of the group before
the validity filter); only the emission of the entry and the
flags/metadata use the filtered rows. -/
theorem c2_expired_row_action_included :
    transformToUserPermissions c2Matrix [c2Resource] c2Lookup (some 1) 100 c2Parse =
      .ok [c2Compiled] ∧
    c2Compiled.actions.contains "DELETE" = true ∧
    isCurrentlyValid 100 c2RowDelete = false ∧
    c2Matrix.filter (isCurrentlyValid 100) = [c2RowRead] ∧
    actionNamesOf c2Lookup [c2RowRead] = ["READ"] := by
  refine ⟨by rfl, by rfl, by rfl, by rfl, by rfl⟩

/-- C8: when the first currently-valid row of a reachable (role,
resource) group carries a non-empty metadata string that the parser
rejects, the compiler propagates the error instead of emitting an entry
with absent metadata. -/
theorem c8_metadata_parse_error_propagates
    (matrix : List PermissionMatrix) (resources : List Resource)
    (lookup : List ActionRec) (roleId : Nat) (now : Int)
    (parseMeta : String → Except Unit Metadata)
    (g : Nat × List PermissionMatrix) (resource : Resource)
    (firstRow : PermissionMatrix) (rest : List PermissionMatrix) (s : String)
    (hrole : ¬ roleId = 0)
    (hg : g ∈ groupsOf matrix roleId)
    (hres : mapLookupResource resources g.1 = some resource)
    (hvalid : g.2.filter (isCurrentlyValid now) = firstRow :: rest)
    (hmeta : firstRow.Metadata = some s)
    (hs : ¬ s = "")
    (hparse : parseMeta s = .error ()) :
    transformToUserPermissions matrix resources lookup (some roleId) now parseMeta =
      .error () := by
  have hpg : processGroup resources lookup now parseMeta g = .error () := by
    unfold processGroup
    rw [hres, hvalid]
    simp only [metadataOf, hmeta, hs, hparse, if_neg hs]
    rfl
  unfold transformToUserPermissions
  dsimp only
  rw [if_neg hrole]
  exact transformFold_error resources lookup now parseMeta _ g hg hpg []

/-- C8 witness: a single active valid row whose metadata string `"x"` the
parser rejects makes the whole compilation error out. -/
theorem c8_metadata_parse_error_propagates_witness :
    transformToUserPermissions [c8Row] [c8Resource] c8Lookup (some 1) 0 c8Parse =
      .error () :=
  c8_metadata_parse_error_propagates [c8Row] [c8Resource] c8Lookup 1 0 c8Parse
    (1, [c8Row]) c8Resource c8Row [] "x" (by decide) (by decide) (by rfl) (by rfl)
    (by rfl) (by decide) (by rfl)

end RBAC
